import Mathlib

/-!
# Campaign manager: the campaign actor and the pledge handler

A shallow embedding of `main.go`: the campaign actor (`CampaignActor.Pledge`,
`getState`, `saveState`) and the bus handler (`pledgeHandler`), together with
the properties of the aggregate state and of the recent-pledge history.

Conventions of the embedding.

* `float64` amounts are an arbitrary type `α` with a zero and an addition: the
  code only ever reads the zero value of a missing map entry and performs `+=`,
  so no law of the addition is assumed anywhere.  Concrete scenarios use `Int`;
  the numbers that occur there are small integers, on which `float64` addition
  is exact.
* Go `int` is `Int`, and `PledgesCounter++` is `+ 1`.  The two agree for every counter
  below `maxInt`; at `maxInt` the code wraps to `minInt`.  In a run from a fresh record the
  counter is the number of applied events and the history slice grows with it, so that
  value is out of reach there; a statement about an arbitrary stored counter carries the
  bound explicitly.
* A Go `map` is an association list with unique keys, wrapped in `Option`;
  `none` is the nil map.  A Go slice is a `List` (a nil slice is `[]`).
* Go `error` results are `Option Error`; `none` is `nil`.
* The state manager, the decoder and the actor proxy belong to the hosting
  platform; they are modelled at their interface.
-/

namespace CampaignManager

/-- Go `error` values, represented by their message. -/
abbrev Error := String

/-! ## Models -/

/-- `PledgeEvent` of main.go.  `Time` is an opaque timestamp: the code never inspects it. -/
structure PledgeEvent (α : Type) where
  CampaignId : String
  Time : Nat
  Donor : String
  Amount : α
  Currency : String
deriving DecidableEq, Repr

/-- `mainState` of main.go (the aggregate record, stored under key "main").
`PledgesCounter` is a Go `int`: a value between `minInt` and `maxInt`. -/
structure mainState (α : Type) where
  Name : String
  PledgesCounter : Int
  Amounts : Option (List (String × α))
deriving DecidableEq, Repr

/-- `pledgesState` of main.go (the recent-pledge record, stored under key "pledges"). -/
structure pledgesState (α : Type) where
  Name : String
  Pledges : List (PledgeEvent α)
deriving DecidableEq, Repr

/-- `CampaignActor` of main.go.  `id` is the identity held by the embedded
`actor.ServerImplBaseCtx`; the state manager of the actor is bound to it. -/
structure CampaignActor (α : Type) where
  id : String
  mainState : mainState α
  pledgesState : pledgesState α
deriving DecidableEq, Repr

/-- `CampaignActorFactory` of main.go: `&CampaignActor{}`, every field at its zero value
(empty names, counter 0, nil map, nil slice). -/
def CampaignActorFactory {α : Type} : CampaignActor α :=
  { id := "", mainState := ⟨"", 0, none⟩, pledgesState := ⟨"", []⟩ }

/-- Activation of an actor by the platform: the factory value with its identity set. -/
def activate {α : Type} (id : String) : CampaignActor α :=
  { (CampaignActorFactory : CampaignActor α) with id := id }

def mainStateKey : String := "main"

/-- The largest Go `int` (64 bits). -/
def maxInt : Int := 9223372036854775807

/-- The smallest Go `int` (64 bits). -/
def minInt : Int := -9223372036854775808

def pledgesStateKey : String := "pledges"

/-! ## Go maps as association lists -/

/-- Reading `m[k]`: the value bound to `k`, if any. -/
def assocGet {κ β : Type} [DecidableEq κ] (k : κ) : List (κ × β) → Option β
  | [] => none
  | (k', v) :: t => if k' = k then some v else assocGet k t

/-- Writing `m[k] = v`: replaces the binding of `k` or adds one. -/
def assocSet {κ β : Type} [DecidableEq κ] (k : κ) (v : β) : List (κ × β) → List (κ × β)
  | [] => [(k, v)]
  | (k', v') :: t => if k' = k then (k, v) :: t else (k', v') :: assocSet k v t

/-! ## The state store -/

/-- A stored record: the code stores `mainState` and `pledgesState` values. -/
inductive Record (α : Type) where
  | main (m : mainState α)
  | pledges (p : pledgesState α)
deriving DecidableEq, Repr

/-- Modelled from the spec: the state store behind `GetStateManager()` (platform code, not
in the repository).  Records are keyed by (actor identity, state key); `pending` holds the
buffered sets that `Save` has not committed yet, `committed` the persisted records. -/
structure Store (α : Type) where
  committed : List ((String × String) × Record α)
  pending : List ((String × String) × Record α)
deriving DecidableEq, Repr

/-- The store with no record at all. -/
def Store.empty {α : Type} : Store α := ⟨[], []⟩

/-- Which store operations fail, by state key (`save` is indexed by the key of the
`saveState` call that issues the `Save`).  A failing operation has no effect and returns
an error. -/
structure Faults where
  contains : String → Bool
  get : String → Bool
  set : String → Bool
  save : String → Bool

/-- Every store operation succeeds. -/
def Faults.none : Faults := ⟨fun _ => false, fun _ => false, fun _ => false, fun _ => false⟩

/-- Some store operation on one of the two state keys fails. -/
def Faults.any (f : Faults) : Bool :=
  f.contains mainStateKey || f.get mainStateKey || f.set mainStateKey || f.save mainStateKey ||
  f.contains pledgesStateKey || f.get pledgesStateKey || f.set pledgesStateKey ||
  f.save pledgesStateKey

/-- The record an actor sees under a key: a buffered set shadows the committed record. -/
def Store.view {α : Type} (s : Store α) (id key : String) : Option (Record α) :=
  match assocGet (id, key) s.pending with
  | some r => some r
  | none => assocGet (id, key) s.committed

/-- Modelled from the spec: `exists(identity, key) -> bool` of the state store. -/
def StateManager.Contains {α : Type} (f : Faults) (s : Store α) (id key : String) :
    Bool × Option Error :=
  if f.contains key then (false, some "contains failed")
  else ((s.view id key).isSome, Option.none)

/-- Modelled from the spec: `get(identity, key) -> record` of the state store, reading into
the actor's `mainState`.  When the call fails, when there is no record, or when the record
is not an aggregate record, an error is returned and the destination keeps its value. -/
def StateManager.GetMain {α : Type} (f : Faults) (s : Store α) (id key : String)
    (reply : mainState α) : mainState α × Option Error :=
  if f.get key then (reply, some "get failed")
  else match s.view id key with
    | some (.main m) => (m, Option.none)
    | some (.pledges _) => (reply, some "cannot decode state")
    | Option.none => (reply, some "state not found")

/-- Modelled from the spec: `get(identity, key) -> record` of the state store, reading into
the actor's `pledgesState`; failures as for `GetMain`. -/
def StateManager.GetPledges {α : Type} (f : Faults) (s : Store α) (id key : String)
    (reply : pledgesState α) : pledgesState α × Option Error :=
  if f.get key then (reply, some "get failed")
  else match s.view id key with
    | some (.pledges p) => (p, Option.none)
    | some (.main _) => (reply, some "cannot decode state")
    | Option.none => (reply, some "state not found")

/-- Modelled from the spec: `set(identity, key, record)` of the state store (buffered). -/
def StateManager.Set {α : Type} (f : Faults) (s : Store α) (id key : String) (r : Record α) :
    Store α × Option Error :=
  if f.set key then (s, some "set failed")
  else ({ s with pending := assocSet (id, key) r s.pending }, Option.none)

/-- Committing buffered sets: the entries of `ps` held under `id` are written to `c`
(an earlier entry of `ps` takes precedence, as it does in `Store.view`). -/
def commit {α : Type} (id : String) :
    List ((String × String) × Record α) → List ((String × String) × Record α) →
    List ((String × String) × Record α)
  | [], c => c
  | (k, r) :: ps, c => if k.1 = id then assocSet k r (commit id ps c) else commit id ps c

/-- The buffered sets that remain once those held under `id` have been committed. -/
def dropPending {α : Type} (id : String) :
    List ((String × String) × Record α) → List ((String × String) × Record α)
  | [] => []
  | (k, r) :: ps => if k.1 = id then dropPending id ps else (k, r) :: dropPending id ps

/-- Modelled from the spec: `save(identity) -> commits buffered sets` of the state store.
`key` only selects the fault flag. -/
def StateManager.Save {α : Type} (f : Faults) (key : String) (s : Store α) (id : String) :
    Store α × Option Error :=
  if f.save key then (s, some "save failed")
  else ({ committed := commit id s.pending s.committed,
          pending := dropPending id s.pending }, Option.none)

/-! ## The actor -/

/-- `CampaignActor.saveState` of main.go.  The errors of `Set` and `Save` are dropped. -/
def saveState {α : Type} (f : Faults) (stateKey : String) (a : CampaignActor α) (s : Store α) :
    Store α :=
  let s1 := if stateKey = mainStateKey then
      (StateManager.Set f s a.id stateKey (.main a.mainState)).1 else s
  let s2 := if stateKey = pledgesStateKey then
      (StateManager.Set f s1 a.id stateKey (.pledges a.pledgesState)).1 else s1
  (StateManager.Save f stateKey s2 a.id).1

/-- `CampaignActor.getState` of main.go, branch for branch.  The second test repeats
`stateKey == mainStateKey`, as the source does; the error of `Get` is dropped. -/
def getState {α : Type} (f : Faults) (stateKey : String) (a : CampaignActor α) (s : Store α) :
    CampaignActor α :=
  match StateManager.Contains f s a.id stateKey with
  | (_, some _) => a
  | (exist, Option.none) =>
    if exist = false ∧ stateKey = mainStateKey then
      { a with mainState := { Name := "Main State", PledgesCounter := 0, Amounts := some [] } }
    else if exist = false ∧ stateKey = mainStateKey then
      { a with pledgesState := { Name := "Pledges State", Pledges := [] } }
    else if stateKey = mainStateKey then
      { a with mainState := (StateManager.GetMain f s a.id stateKey a.mainState).1 }
    else if stateKey = pledgesStateKey then
      { a with pledgesState := (StateManager.GetPledges f s a.id stateKey a.pledgesState).1 }
    else a

/-- How an invocation of `Pledge` ends: it returns an error value (`none` is `nil`), or it
panics.  Both carry the actor and the store as the invocation left them. -/
inductive Outcome (α : Type) where
  | returned (err : Option Error) (a : CampaignActor α) (s : Store α)
  | panicked (a : CampaignActor α) (s : Store α)
deriving DecidableEq, Repr

/-- The statement `a.mainState.Amounts[evt.Currency] += evt.Amount` on an initialised map:
a missing entry reads as the zero value. -/
def addAmount {α : Type} [Zero α] [Add α] (m : List (String × α)) (evt : PledgeEvent α) :
    List (String × α) :=
  assocSet evt.Currency ((assocGet evt.Currency m).getD 0 + evt.Amount) m

/-- `CampaignActor.Pledge` of main.go.  Writing to a nil map panics (after the counter has
been incremented); otherwise the method returns nil.  The increment is that of the code for
a counter below `maxInt`. -/
def Pledge {α : Type} [Zero α] [Add α] (f : Faults) (evt : PledgeEvent α)
    (a : CampaignActor α) (s : Store α) : Outcome α :=
  let a1 := getState f mainStateKey a s
  let a2 := { a1 with mainState :=
    { a1.mainState with PledgesCounter := a1.mainState.PledgesCounter + 1 } }
  match a2.mainState.Amounts with
  | Option.none => .panicked a2 s
  | some m =>
    let a3 := { a2 with mainState := { a2.mainState with Amounts := some (addAmount m evt) } }
    let s1 := saveState f mainStateKey a3 s
    let a4 := getState f pledgesStateKey a3 s1
    let a5 := { a4 with pledgesState :=
      { a4.pledgesState with Pledges := a4.pledgesState.Pledges ++ [evt] } }
    let s2 := saveState f pledgesStateKey a5 s1
    .returned Option.none a5 s2

/-- The actor after the invocation. -/
def Outcome.actor {α : Type} : Outcome α → CampaignActor α
  | .returned _ a _ => a
  | .panicked a _ => a

/-- The store after the invocation. -/
def Outcome.store {α : Type} : Outcome α → Store α
  | .returned _ _ s => s
  | .panicked _ s => s

/-- Events applied one after another to the same actor instance; a panic ends the run. -/
def pledgeAll {α : Type} [Zero α] [Add α] (f : Faults) :
    List (PledgeEvent α) → CampaignActor α → Store α → Outcome α
  | [], a, s => .returned Option.none a s
  | e :: es, a, s =>
    match Pledge f e a s with
    | .returned _ a' s' => pledgeAll f es a' s'
    | .panicked a' s' => .panicked a' s'

/-- The persisted (committed) aggregate record of an identity. -/
def persistedMain {α : Type} (s : Store α) (id : String) : Option (Record α) :=
  assocGet (id, mainStateKey) s.committed

/-- The persisted (committed) recent-pledge record of an identity. -/
def persistedPledges {α : Type} (s : Store α) (id : String) : Option (Record α) :=
  assocGet (id, pledgesStateKey) s.committed

/-- The sum of the amounts of the events with currency `c`, added in arrival order
starting from the zero value. -/
def sumFor {α : Type} [Zero α] [Add α] (c : String) (evts : List (PledgeEvent α)) : α :=
  ((evts.filter (fun e => decide (e.Currency = c))).map (fun e => e.Amount)).foldl (· + ·) 0

/-! ## Loaded state, runs and examples -/

/-- The aggregate state `Pledge` works on once it has loaded it. -/
def loadedMain {α : Type} (f : Faults) (a : CampaignActor α) (s : Store α) : mainState α :=
  (getState f mainStateKey a s).mainState

/-- The recent-pledge state `Pledge` works on once it has loaded it. -/
def loadedPledges {α : Type} (f : Faults) (a : CampaignActor α) (s : Store α) : pledgesState α :=
  (getState f pledgesStateKey a s).pledgesState

/-- The example run of the specification: three pledges for campaign "1000". -/
def exampleEvents (t1 t2 t3 : Nat) : List (PledgeEvent Int) :=
  [⟨"1000", t1, "A B", 100, "USD"⟩, ⟨"1000", t2, "C D", 50, "USD"⟩,
   ⟨"1000", t3, "E F", 20, "EUR"⟩]

/-- The aggregate record that an invocation of `Pledge` which returned handed to the store. -/
def WrittenByPledge {α : Type} [Zero α] [Add α] (r : Record α) : Prop :=
  ∃ (f : Faults) (e : PledgeEvent α) (a : CampaignActor α) (s : Store α)
    (err : Option Error) (a' : CampaignActor α) (s' : Store α),
    Pledge f e a s = .returned err a' s' ∧ r = .main a'.mainState

/-- `Set` and `Save` fail under every key; `Contains` and `Get` succeed. -/
def writesFail : Faults := ⟨fun _ => false, fun _ => false, fun _ => true, fun _ => true⟩

/-- Every store operation fails, under every key. -/
def allFail : Faults := ⟨fun _ => true, fun _ => true, fun _ => true, fun _ => true⟩

/-! ## The pledge handler -/

/-- `common.TopicEvent`: only the payload matters to the handler. -/
structure TopicEvent (δ : Type) where
  Data : δ

/-- The zero value `PledgeEvent{}`. -/
def PledgeEvent.zero {α : Type} [Zero α] : PledgeEvent α := ⟨"", 0, "", 0, ""⟩

/-- Modelled from the spec: the platform client (`daprclient`, platform code, not in the
repository).  `invokeActor actorType actorId method` is the remote call an implemented
actor stub performs: it acts on the state of the world `ω` and returns the error of the
call (`none` is nil). -/
structure Client (α ω : Type) where
  invokeActor : String → String → String → PledgeEvent α → ω → Option Error × ω

/-- `CampaignActorStub` of main.go; `Pledge` is the function field (nil, here `none`, until
the client implements the stub). -/
structure CampaignActorStub (α ω : Type) where
  Id : String
  Pledge : Option (PledgeEvent α → ω → Option Error × ω)

/-- `NewCampaignActor` of main.go. -/
def NewCampaignActor {α ω : Type} (id : String) : CampaignActorStub α ω :=
  { Id := id, Pledge := none }

/-- `CampaignActorStub.Type` of main.go. -/
def CampaignActorStub.Type {α ω : Type} (_ : CampaignActorStub α ω) : String :=
  "CampaignActorType"

/-- `CampaignActorStub.ID` of main.go. -/
def CampaignActorStub.ID {α ω : Type} (a : CampaignActorStub α ω) : String := a.Id

/-- Modelled from the spec: `ImplActorClientStub` of the platform client: it fills the
function field of the stub with the remote call to the actor of the stub's type and
identity. -/
def Client.ImplActorClientStub {α ω : Type} (c : Client α ω) (stub : CampaignActorStub α ω) :
    CampaignActorStub α ω :=
  { stub with Pledge := some (c.invokeActor stub.Type stub.ID "Pledge") }

/-- How a delivery ends: the handler returns `(retry, err)`, or it panics on a nil function
field. -/
inductive Handled (ω : Type) where
  | returned (retry : Bool) (err : Option Error) (w : ω)
  | panicked (w : ω)

/-- `pledgeHandler` of main.go.  `decode` stands for `mapstructure.Decode`: from the payload
and the destination it yields the destination as the decoder left it and the decoding
error; the handler drops that error. -/
def pledgeHandler {α ω δ : Type} [Zero α]
    (decode : δ → PledgeEvent α → PledgeEvent α × Option Error) (daprclient : Client α ω)
    (e : TopicEvent δ) (w : ω) : Handled ω :=
  let evt := (decode e.Data PledgeEvent.zero).1
  let campaignActorProxy := daprclient.ImplActorClientStub (NewCampaignActor evt.CampaignId)
  match campaignActorProxy.Pledge with
  | none => .panicked w
  | some call =>
    match call evt w with
    | (some err, w') => .returned false (some err) w'
    | (none, w') => .returned false none w'

/-- Modelled from the spec: the state of the actor host: the activated actor instances, one
per identity, and the state store. -/
structure World (α : Type) where
  actors : List (String × CampaignActor α)
  store : Store α
deriving DecidableEq, Repr

/-- Modelled from the spec: the actor host behind the client.  A call to `Pledge` of a
campaign actor runs on the instance of that identity, activated through the factory on
first use; a panic of the method reaches the caller as an error. -/
def hostClient {α : Type} [Zero α] [Add α] (f : Faults) : Client α (World α) where
  invokeActor := fun actorType id method evt w =>
    if actorType = "CampaignActorType" ∧ method = "Pledge" then
      match Pledge f evt ((assocGet id w.actors).getD (activate id)) w.store with
      | .returned err a' s' => (err, ⟨assocSet id a' w.actors, s'⟩)
      | .panicked a' s' => (some "actor method panicked", ⟨assocSet id a' w.actors, s'⟩)
    else (some "no such actor method", w)

/-- A raw field value of a bus payload. -/
inductive Raw where
  | text (s : String)
  | number (n : Int)
deriving DecidableEq, Repr

/-- Decoding of one string field: a text value is stored, a value of another type leaves the
field untouched and is recorded as an error, an absent field is skipped. -/
def decodeText (d : List (String × Raw)) (name : String)
    (put : String → PledgeEvent Int → PledgeEvent Int)
    (r : PledgeEvent Int × Option Error) : PledgeEvent Int × Option Error :=
  match assocGet name d with
  | some (.text s) => (put s r.1, r.2)
  | some (.number _) => (r.1, some "field has the wrong type")
  | none => r

/-- Decoding of one numeric field, as `decodeText`. -/
def decodeNumber (d : List (String × Raw)) (name : String)
    (put : Int → PledgeEvent Int → PledgeEvent Int)
    (r : PledgeEvent Int × Option Error) : PledgeEvent Int × Option Error :=
  match assocGet name d with
  | some (.number n) => (put n r.1, r.2)
  | some (.text _) => (r.1, some "field has the wrong type")
  | none => r

/-- A decoder of map payloads in the manner of `mapstructure.Decode`: the fields are decoded
one by one into the destination, a field of the wrong type does not stop the others, and the
decoding fails if some field did. -/
def decodeFields (d : List (String × Raw)) (evt : PledgeEvent Int) :
    PledgeEvent Int × Option Error :=
  decodeText d "Currency" (fun s e => { e with Currency := s })
    (decodeNumber d "Amount" (fun n e => { e with Amount := n })
      (decodeText d "Donor" (fun s e => { e with Donor := s })
        (decodeNumber d "Time" (fun n e => { e with Time := n.toNat })
          (decodeText d "CampaignId" (fun s e => { e with CampaignId := s }) (evt, none)))))

/-- A payload whose amount is a text, not a number. -/
def malformedPayload : List (String × Raw) :=
  [("CampaignId", .text "1000"), ("Donor", .text "A B"), ("Amount", .text "one hundred"),
   ("Currency", .text "USD")]

/-! ## Sample data -/

/-- A newly activated actor for campaign "1000". -/
def freshActor : CampaignActor Int := activate "1000"

/-- A pledge for campaign "1000". -/
def samplePledge : PledgeEvent Int := ⟨"1000", 1, "A B", 100, "USD"⟩

/-- A store that holds the records of campaign "1001" only. -/
def sampleStore : Store Int :=
  ⟨[(("1001", "main"), .main ⟨"Main State", 1, some [("EUR", 30)]⟩),
    (("1001", "pledges"), .pledges ⟨"", [⟨"1001", 7, "G H", 30, "EUR"⟩]⟩)], []⟩

/-- The actor of campaign "1000" as one pledge leaves it in memory. -/
def liveActor : CampaignActor Int :=
  ⟨"1000", ⟨"Main State", 1, some [("USD", 100)]⟩, ⟨"", [samplePledge]⟩⟩

/-- The store after one pledge for campaign "1000" on the empty store. -/
def storeAfterOne : Store Int :=
  (Pledge Faults.none samplePledge freshActor Store.empty).store

/-! ## Lemmas on association lists -/

theorem assocGet_assocSet {κ β : Type} [DecidableEq κ] (k k' : κ) (v : β) (m : List (κ × β)) :
    assocGet k' (assocSet k v m) = if k' = k then some v else assocGet k' m := by
  induction m with
  | nil =>
    by_cases h : k' = k
    · subst h; simp [assocSet, assocGet]
    · have h' : ¬ k = k' := fun e => h e.symm
      simp [assocSet, assocGet, h, h']
  | cons x t ih =>
    obtain ⟨k0, v0⟩ := x
    by_cases h0 : k0 = k
    · subst h0
      by_cases h : k' = k0
      · subst h; simp [assocSet, assocGet]
      · have h' : ¬ k0 = k' := fun e => h e.symm
        simp [assocSet, assocGet, h, h']
    · by_cases h : k' = k
      · subst h
        simp [assocSet, assocGet, h0, ih]
      · by_cases h1 : k0 = k'
        · simp [assocSet, assocGet, h0, h, h1]
        · simp [assocSet, assocGet, h0, h, h1, ih]

theorem assocGet_dropPending {α : Type} (id i k : String)
    (l : List ((String × String) × Record α)) :
    assocGet (i, k) (dropPending id l) = if i = id then none else assocGet (i, k) l := by
  induction l with
  | nil => simp [assocGet, dropPending]
  | cons x t ih =>
    obtain ⟨⟨i0, k0⟩, v0⟩ := x
    by_cases h0 : i0 = id
    · subst h0
      by_cases h : i = i0
      · subst h; simp [dropPending, ih]
      · have h' : ¬ i0 = i := fun e => h e.symm
        simp [dropPending, ih, assocGet, h, h']
    · by_cases h : i = id
      · subst h
        simp [dropPending, h0, assocGet, ih]
      · simp [dropPending, h0, assocGet, ih, h]

theorem assocGet_commit {α : Type} (id i k : String)
    (ps c : List ((String × String) × Record α)) :
    assocGet (i, k) (commit id ps c) =
      if i = id then
        (match assocGet (i, k) ps with
          | some r => some r
          | none => assocGet (i, k) c)
      else assocGet (i, k) c := by
  induction ps with
  | nil => simp [commit, assocGet]
  | cons x t ih =>
    obtain ⟨⟨i0, k0⟩, v0⟩ := x
    by_cases h0 : i0 = id
    · subst h0
      by_cases h : i = i0
      · subst h
        by_cases hk : k = k0
        · subst hk; simp [commit, assocGet, assocGet_assocSet]
        · have hk' : ¬ k0 = k := fun e => hk e.symm
          simp [commit, assocGet, assocGet_assocSet, ih, hk, hk']
      · have h' : ¬ i0 = i := fun e => h e.symm
        simp [commit, assocGet, assocGet_assocSet, ih, h, h']
    · simp [commit, h0, ih, assocGet]
      by_cases h : i = id
      · subst h
        have h' : ¬ i0 = i := h0
        simp [h']
      · simp [h]

/-! ## Lemmas on the store operations -/

theorem keys_ne : mainStateKey ≠ pledgesStateKey := by decide

theorem view_Set {α : Type} (f : Faults) (s : Store α) (id key : String) (r : Record α)
    (i k : String) :
    ((StateManager.Set f s id key r).1).view i k =
      if f.set key = false ∧ i = id ∧ k = key then some r else s.view i k := by
  unfold StateManager.Set
  by_cases hf : f.set key = true
  · simp [hf]
  · have hf' : f.set key = false := by simpa using hf
    by_cases h : (i, k) = (id, key)
    · obtain ⟨h1, h2⟩ := Prod.mk.inj h
      subst h1; subst h2
      simp [hf', Store.view, assocGet_assocSet]
    · have h' : ¬ (i = id ∧ k = key) := fun e => h (by rw [e.1, e.2])
      simp [hf', Store.view, assocGet_assocSet, h, h']

theorem view_Save {α : Type} (f : Faults) (key : String) (s : Store α) (id i k : String) :
    ((StateManager.Save f key s id).1).view i k = s.view i k := by
  unfold StateManager.Save
  by_cases hf : f.save key = true
  · simp [hf]
  · have hf' : f.save key = false := by simpa using hf
    by_cases h : i = id
    · subst h
      simp [hf', Store.view, assocGet_dropPending, assocGet_commit]
    · simp [hf', Store.view, assocGet_dropPending, assocGet_commit, h]

theorem pending_Save_ok {α : Type} (f : Faults) (key : String) (s : Store α) (id k : String)
    (hf : f.save key = false) :
    assocGet (id, k) ((StateManager.Save f key s id).1).pending = none := by
  simp [StateManager.Save, hf, assocGet_dropPending]

theorem frame_Set {α : Type} (f : Faults) (s : Store α) (id key : String) (r : Record α)
    (i k : String) (h : i ≠ id) :
    assocGet (i, k) ((StateManager.Set f s id key r).1).committed = assocGet (i, k) s.committed ∧
    assocGet (i, k) ((StateManager.Set f s id key r).1).pending = assocGet (i, k) s.pending := by
  unfold StateManager.Set
  by_cases hf : f.set key = true
  · simp [hf]
  · have hf' : f.set key = false := by simpa using hf
    have h' : ¬ (i, k) = (id, key) := fun e => h (Prod.mk.inj e).1
    simp [hf', assocGet_assocSet, h']

theorem frame_Save {α : Type} (f : Faults) (key : String) (s : Store α) (id i k : String)
    (h : i ≠ id) :
    assocGet (i, k) ((StateManager.Save f key s id).1).committed = assocGet (i, k) s.committed ∧
    assocGet (i, k) ((StateManager.Save f key s id).1).pending = assocGet (i, k) s.pending := by
  unfold StateManager.Save
  by_cases hf : f.save key = true
  · simp [hf]
  · have hf' : f.save key = false := by simpa using hf
    simp [hf', assocGet_dropPending, assocGet_commit, h]

/-! ## Lemmas on saveState and getState -/

theorem view_saveState_main {α : Type} (f : Faults) (a : CampaignActor α) (s : Store α)
    (i k : String) :
    (saveState f mainStateKey a s).view i k =
      if f.set mainStateKey = false ∧ i = a.id ∧ k = mainStateKey then some (.main a.mainState)
      else s.view i k := by
  simp [saveState, keys_ne, view_Save, view_Set]

theorem view_saveState_pledges {α : Type} (f : Faults) (a : CampaignActor α) (s : Store α)
    (i k : String) :
    (saveState f pledgesStateKey a s).view i k =
      if f.set pledgesStateKey = false ∧ i = a.id ∧ k = pledgesStateKey then
        some (.pledges a.pledgesState)
      else s.view i k := by
  simp [saveState, keys_ne.symm, view_Save, view_Set]

theorem pending_saveState {α : Type} (f : Faults) (key : String) (a : CampaignActor α)
    (s : Store α) (k : String) (hf : f.save key = false) :
    assocGet (a.id, k) (saveState f key a s).pending = none := by
  unfold saveState
  exact pending_Save_ok f key _ a.id k hf

theorem committed_eq_view {α : Type} (s : Store α) (id k : String)
    (h : assocGet (id, k) s.pending = none) :
    assocGet (id, k) s.committed = s.view id k := by
  simp [Store.view, h]

theorem frame_saveState {α : Type} (f : Faults) (key : String) (a : CampaignActor α)
    (s : Store α) (i k : String) (h : i ≠ a.id) :
    assocGet (i, k) (saveState f key a s).committed = assocGet (i, k) s.committed ∧
    assocGet (i, k) (saveState f key a s).pending = assocGet (i, k) s.pending := by
  unfold saveState
  constructor
  · rw [(frame_Save f key _ a.id i k h).1]
    split_ifs <;> simp [(frame_Set f _ a.id key _ i k h).1]
  · rw [(frame_Save f key _ a.id i k h).2]
    split_ifs <;> simp [(frame_Set f _ a.id key _ i k h).2]

theorem getState_id {α : Type} (f : Faults) (key : String) (a : CampaignActor α) (s : Store α) :
    (getState f key a s).id = a.id := by
  unfold getState
  split
  · rfl
  · split_ifs <;> rfl

theorem getState_congr {α : Type} (f : Faults) (key : String) (a : CampaignActor α)
    (s t : Store α) (h : ∀ k, s.view a.id k = t.view a.id k) :
    getState f key a s = getState f key a t := by
  simp [getState, StateManager.Contains, StateManager.GetMain, StateManager.GetPledges, h]

theorem getState_main_absent {α : Type} (f : Faults) (a : CampaignActor α) (s : Store α)
    (hc : f.contains mainStateKey = false) (h : s.view a.id mainStateKey = none) :
    getState f mainStateKey a s =
      { a with mainState := { Name := "Main State", PledgesCounter := 0, Amounts := some [] } } := by
  simp [getState, StateManager.Contains, hc, h]

theorem getState_main_present {α : Type} (f : Faults) (a : CampaignActor α) (s : Store α)
    (m : mainState α) (hc : f.contains mainStateKey = false) (hg : f.get mainStateKey = false)
    (h : s.view a.id mainStateKey = some (.main m)) :
    getState f mainStateKey a s = { a with mainState := m } := by
  simp [getState, StateManager.Contains, StateManager.GetMain, hc, hg, h]

theorem getState_pledges_absent {α : Type} (f : Faults) (a : CampaignActor α) (s : Store α)
    (h : s.view a.id pledgesStateKey = none) :
    getState f pledgesStateKey a s = a := by
  unfold getState StateManager.Contains
  by_cases hc : f.contains pledgesStateKey = true
  · simp [hc]
  · have hc' : f.contains pledgesStateKey = false := by simpa using hc
    simp only [hc', h, StateManager.GetPledges]
    by_cases hg : f.get pledgesStateKey = true
    · simp [hg, keys_ne.symm]
    · have hg' : f.get pledgesStateKey = false := by simpa using hg
      simp [hg', keys_ne.symm]

theorem getState_pledges_present {α : Type} (f : Faults) (a : CampaignActor α) (s : Store α)
    (p : pledgesState α) (hc : f.contains pledgesStateKey = false)
    (hg : f.get pledgesStateKey = false)
    (h : s.view a.id pledgesStateKey = some (.pledges p)) :
    getState f pledgesStateKey a s = { a with pledgesState := p } := by
  simp [getState, StateManager.Contains, StateManager.GetPledges, hc, hg, h, keys_ne.symm]

theorem getState_main_pledgesState {α : Type} (f : Faults) (a : CampaignActor α) (s : Store α) :
    (getState f mainStateKey a s).pledgesState = a.pledgesState := by
  unfold getState
  split
  · rfl
  · split_ifs <;> first | rfl | simp_all [keys_ne]

theorem getState_pledges_mainState {α : Type} (f : Faults) (a : CampaignActor α) (s : Store α) :
    (getState f pledgesStateKey a s).mainState = a.mainState := by
  unfold getState
  split
  · rfl
  · split_ifs <;> first | rfl | simp_all [keys_ne.symm]

/-- The recent-pledge state loaded by `getState` depends on the actor only through its
identity and its in-memory recent-pledge state. -/
theorem getState_pledges_congr {α : Type} (f : Faults) (a b : CampaignActor α) (s t : Store α)
    (hid : a.id = b.id) (hp : a.pledgesState = b.pledgesState)
    (hv : s.view a.id pledgesStateKey = t.view b.id pledgesStateKey) :
    (getState f pledgesStateKey a s).pledgesState =
      (getState f pledgesStateKey b t).pledgesState := by
  unfold getState StateManager.Contains StateManager.GetPledges
  rw [hv, ← hid, hp]
  by_cases hc : f.contains pledgesStateKey = true
  · simp [hc, hp]
  · have hc' : f.contains pledgesStateKey = false := by simpa using hc
    simp only [hc']
    split_ifs <;> simp_all [keys_ne.symm]

/-! ## One invocation of Pledge -/

theorem saveState_main_congr {α : Type} (f : Faults) (a b : CampaignActor α) (s : Store α)
    (hid : a.id = b.id) (hm : a.mainState = b.mainState) :
    saveState f mainStateKey a s = saveState f mainStateKey b s := by
  simp [saveState, keys_ne, hid, hm]

theorem Pledge_returned {α : Type} [Zero α] [Add α] (f : Faults) (e : PledgeEvent α)
    (a : CampaignActor α) (s : Store α) (am : List (String × α))
    (h : (loadedMain f a s).Amounts = some am) :
    Pledge f e a s = .returned none (Pledge f e a s).actor (Pledge f e a s).store ∧
      (Pledge f e a s).actor.id = a.id ∧
      (Pledge f e a s).actor.mainState = ⟨(loadedMain f a s).Name,
        (loadedMain f a s).PledgesCounter + 1, some (addAmount am e)⟩ ∧
      (Pledge f e a s).actor.pledgesState =
        ⟨(loadedPledges f a s).Name, (loadedPledges f a s).Pledges ++ [e]⟩ ∧
      (Pledge f e a s).store =
        saveState f pledgesStateKey (Pledge f e a s).actor
          (saveState f mainStateKey (Pledge f e a s).actor s) := by
  unfold loadedMain at h
  unfold Pledge
  simp only [h, Outcome.actor, Outcome.store]
  refine ⟨trivial, ?_, ?_, ?_, ?_⟩
  · simp [getState_id]
  · simp [getState_pledges_mainState, loadedMain]
  · simp only [loadedPledges]
    have hc := getState_pledges_congr f
      { id := (getState f mainStateKey a s).id,
        mainState := ⟨(getState f mainStateKey a s).mainState.Name,
          (getState f mainStateKey a s).mainState.PledgesCounter + 1, some (addAmount am e)⟩,
        pledgesState := (getState f mainStateKey a s).pledgesState }
      a
      (saveState f mainStateKey
        { id := (getState f mainStateKey a s).id,
          mainState := ⟨(getState f mainStateKey a s).mainState.Name,
            (getState f mainStateKey a s).mainState.PledgesCounter + 1, some (addAmount am e)⟩,
          pledgesState := (getState f mainStateKey a s).pledgesState } s)
      s (getState_id f _ a s) (getState_main_pledgesState f a s)
      (by rw [view_saveState_main]; simp [keys_ne.symm, getState_id])
    rw [hc]
  · congr 1
    apply saveState_main_congr
    · simp [getState_id]
    · simp [getState_pledges_mainState]

theorem Pledge_panicked {α : Type} [Zero α] [Add α] (f : Faults) (e : PledgeEvent α)
    (a : CampaignActor α) (s : Store α) (h : (loadedMain f a s).Amounts = none) :
    Pledge f e a s = .panicked (Pledge f e a s).actor s ∧
      (Pledge f e a s).actor.id = a.id ∧
      (Pledge f e a s).actor.mainState.PledgesCounter = (loadedMain f a s).PledgesCounter + 1 ∧
      (Pledge f e a s).actor.pledgesState = a.pledgesState := by
  unfold loadedMain at h
  unfold Pledge
  simp only [h, Outcome.actor]
  refine ⟨trivial, ?_, ?_, ?_⟩
  · simp [getState_id]
  · simp [loadedMain]
  · simp [getState_main_pledgesState]

theorem Faults.none_set (k : String) : Faults.none.set k = false := rfl

theorem Pledge_none_views {α : Type} [Zero α] [Add α] (e : PledgeEvent α)
    (a : CampaignActor α) (s : Store α) (am : List (String × α))
    (h : (loadedMain Faults.none a s).Amounts = some am) :
    (Pledge Faults.none e a s).store.view a.id mainStateKey =
        some (.main (Pledge Faults.none e a s).actor.mainState) ∧
      (Pledge Faults.none e a s).store.view a.id pledgesStateKey =
        some (.pledges (Pledge Faults.none e a s).actor.pledgesState) ∧
      ∀ k, assocGet (a.id, k) (Pledge Faults.none e a s).store.pending = none := by
  obtain ⟨_, hid, _, _, hs⟩ := Pledge_returned Faults.none e a s am h
  refine ⟨?_, ?_, ?_⟩
  · rw [hs, view_saveState_pledges, view_saveState_main]
    simp [keys_ne, hid, Faults.none_set]
  · rw [hs, view_saveState_pledges]
    simp [hid, Faults.none_set]
  · intro k
    rw [hs, ← hid]
    exact pending_saveState Faults.none pledgesStateKey _ _ k rfl

/-! ## Sequences of invocations -/

theorem pledgeAll_loaded {α : Type} [Zero α] [Add α] (evts : List (PledgeEvent α)) :
    ∀ (a : CampaignActor α) (s : Store α) (m : mainState α) (am : List (String × α))
      (p : pledgesState α),
      s.view a.id mainStateKey = some (.main m) → m.Amounts = some am →
      s.view a.id pledgesStateKey = some (.pledges p) →
      pledgeAll Faults.none evts a s =
          .returned none (pledgeAll Faults.none evts a s).actor
            (pledgeAll Faults.none evts a s).store ∧
        (pledgeAll Faults.none evts a s).actor.id = a.id ∧
        (pledgeAll Faults.none evts a s).store.view a.id mainStateKey =
          some (.main ⟨m.Name, m.PledgesCounter + evts.length,
            some (evts.foldl addAmount am)⟩) ∧
        (pledgeAll Faults.none evts a s).store.view a.id pledgesStateKey =
          some (.pledges ⟨p.Name, p.Pledges ++ evts⟩) ∧
        (evts ≠ [] → ∀ k, assocGet (a.id, k) (pledgeAll Faults.none evts a s).store.pending
          = none) := by
  induction evts with
  | nil =>
    intro a s m am p hm ham hp
    simp [pledgeAll, Outcome.actor, Outcome.store, hm, hp, ← ham]
  | cons e es ih =>
    intro a s m am p hm ham hp
    have hlm : loadedMain Faults.none a s = m := by
      simp [loadedMain, getState_main_present Faults.none a s m rfl rfl hm]
    have hlp : loadedPledges Faults.none a s = p := by
      simp [loadedPledges, getState_pledges_present Faults.none a s p rfl rfl hp]
    have hl : (loadedMain Faults.none a s).Amounts = some am := by rw [hlm, ham]
    obtain ⟨hret, hid, hms, hps, _⟩ := Pledge_returned Faults.none e a s am hl
    obtain ⟨hvm, hvp, hpend⟩ := Pledge_none_views e a s am hl
    rw [hms, hlm] at hvm
    rw [hps, hlp] at hvp
    rw [← hid] at hvm hvp
    obtain ⟨r1, r2, r3, r4, r5⟩ := ih _ _ _ (addAmount am e) _ hvm rfl hvp
    have hunf : pledgeAll Faults.none (e :: es) a s =
        pledgeAll Faults.none es (Pledge Faults.none e a s).actor
          (Pledge Faults.none e a s).store := by
      conv_lhs =>
        unfold pledgeAll
        rw [hret]
    rw [hunf]
    refine ⟨r1, by rw [r2, hid], ?_, ?_, ?_⟩
    · rw [← hid, r3]
      simp [List.foldl]
      omega
    · rw [← hid, r4]
      simp
    · intro _ k
      by_cases hes : es = []
      · subst hes
        simpa [pledgeAll, Outcome.store] using hpend k
      · rw [← hid]
        exact r5 hes k

theorem foldl_addAmount_getD {α : Type} [Zero α] [Add α] (c : String)
    (evts : List (PledgeEvent α)) :
    ∀ am : List (String × α),
      (assocGet c (evts.foldl addAmount am)).getD 0 =
        ((evts.filter (fun e => decide (e.Currency = c))).map (fun e => e.Amount)).foldl
          (· + ·) ((assocGet c am).getD 0) := by
  induction evts with
  | nil => intro am; simp
  | cons e es ih =>
    intro am
    rw [List.foldl_cons, ih]
    by_cases h : e.Currency = c
    · subst h
      simp [addAmount, assocGet_assocSet]
    · have h' : ¬ c = e.Currency := fun x => h x.symm
      simp [addAmount, assocGet_assocSet, h, h']

theorem foldl_addAmount_isSome {α : Type} [Zero α] [Add α] (c : String)
    (evts : List (PledgeEvent α)) :
    ∀ am : List (String × α),
      ((assocGet c (evts.foldl addAmount am)).isSome ↔
        ((assocGet c am).isSome ∨ ∃ e ∈ evts, e.Currency = c)) := by
  induction evts with
  | nil => intro am; simp
  | cons e es ih =>
    intro am
    rw [List.foldl_cons, ih]
    by_cases h : e.Currency = c
    · subst h
      simp [addAmount, assocGet_assocSet]
    · have h' : ¬ c = e.Currency := fun x => h x.symm
      simp [addAmount, assocGet_assocSet, h, h']

theorem loadedMain_fresh {α : Type} (a : CampaignActor α) (s : Store α)
    (h : s.view a.id mainStateKey = none) :
    loadedMain Faults.none a s = ⟨"Main State", 0, some []⟩ := by
  simp [loadedMain, getState_main_absent Faults.none a s rfl h]

theorem loadedPledges_fresh {α : Type} (f : Faults) (a : CampaignActor α) (s : Store α)
    (h : s.view a.id pledgesStateKey = none) :
    loadedPledges f a s = a.pledgesState := by
  simp [loadedPledges, getState_pledges_absent f a s h]

/-- A run from a fresh aggregate record: the outcome, the identity, the aggregate record seen
afterwards, the recent-pledge record seen afterwards (it extends the state loaded at the
first event), and the emptiness of the buffer. -/
theorem pledgeAll_fresh {α : Type} [Zero α] [Add α] (e : PledgeEvent α)
    (es : List (PledgeEvent α)) (a : CampaignActor α) (s : Store α)
    (hfresh : s.view a.id mainStateKey = none) :
    pledgeAll Faults.none (e :: es) a s =
        .returned none (pledgeAll Faults.none (e :: es) a s).actor
          (pledgeAll Faults.none (e :: es) a s).store ∧
      (pledgeAll Faults.none (e :: es) a s).store.view a.id mainStateKey =
        some (.main ⟨"Main State", ((e :: es).length : Int),
          some ((e :: es).foldl addAmount [])⟩) ∧
      (pledgeAll Faults.none (e :: es) a s).store.view a.id pledgesStateKey =
        some (.pledges ⟨(loadedPledges Faults.none a s).Name,
          (loadedPledges Faults.none a s).Pledges ++ (e :: es)⟩) ∧
      ∀ k, assocGet (a.id, k) (pledgeAll Faults.none (e :: es) a s).store.pending = none := by
  have hlm := loadedMain_fresh a s hfresh
  have hl : (loadedMain Faults.none a s).Amounts = some [] := by rw [hlm]
  obtain ⟨hret, hid, hms, hps, _⟩ := Pledge_returned Faults.none e a s [] hl
  obtain ⟨hvm, hvp, hpend⟩ := Pledge_none_views e a s [] hl
  rw [hms, hlm] at hvm
  rw [hps] at hvp
  rw [← hid] at hvm hvp
  obtain ⟨r1, _, r3, r4, r5⟩ := pledgeAll_loaded es _ _ _ (addAmount [] e) _ hvm rfl hvp
  have hunf : pledgeAll Faults.none (e :: es) a s =
      pledgeAll Faults.none es (Pledge Faults.none e a s).actor
        (Pledge Faults.none e a s).store := by
    conv_lhs =>
      unfold pledgeAll
      rw [hret]
  rw [hunf]
  refine ⟨r1, ?_, ?_, ?_⟩
  · rw [← hid, r3]
    simp [List.foldl]
    omega
  · rw [← hid, r4]
    simp
  · intro k
    by_cases hes : es = []
    · subst hes
      simpa [pledgeAll, Outcome.store] using hpend k
    · rw [← hid]
      exact r5 hes k

/-! ## Aggregate counters (C1) -/

/-- C1: when pledge events are applied one after another by `Pledge` to an identity with no
"main" record in the store, every store operation succeeding, the run returns; if there is at
least one event, the persisted "main" record has `PledgesCounter` equal to the number of
events and, for every currency `c`, `Amounts[c]` (0 when absent) is the sum of the amounts
of the events with currency `c`, and `c` is a key of the map exactly when some event has
it.  With no event at all no record is persisted. -/
theorem pledge_sequence_counter_and_sums {α : Type} [Zero α] [Add α]
    (evts : List (PledgeEvent α)) (a : CampaignActor α) (s : Store α)
    (hfresh : s.view a.id mainStateKey = none) :
    ∃ a' s', pledgeAll Faults.none evts a s = .returned none a' s' ∧
      (evts = [] → persistedMain s' a.id = none) ∧
      (evts ≠ [] → ∃ am,
        persistedMain s' a.id = some (.main ⟨"Main State", (evts.length : Int), some am⟩) ∧
        ∀ c, (assocGet c am).getD 0 = sumFor c evts ∧
          ((assocGet c am).isSome ↔ ∃ e ∈ evts, e.Currency = c)) := by
  cases evts with
  | nil =>
    refine ⟨a, s, rfl, ?_, fun h => absurd rfl h⟩
    intro _
    unfold Store.view at hfresh
    unfold persistedMain
    cases hp : assocGet (a.id, mainStateKey) s.pending with
    | none => simpa [hp] using hfresh
    | some r => simp [hp] at hfresh
  | cons e es =>
    obtain ⟨hret, hvm, _, hpend⟩ := pledgeAll_fresh e es a s hfresh
    refine ⟨_, _, hret, fun h => by simp at h, fun _ => ⟨(e :: es).foldl addAmount [], ?_, ?_⟩⟩
    · unfold persistedMain
      rw [committed_eq_view _ _ _ (hpend mainStateKey), hvm]
    · intro c
      refine ⟨?_, ?_⟩
      · rw [foldl_addAmount_getD]
        simp [sumFor, assocGet]
      · rw [foldl_addAmount_isSome]
        simp [assocGet]

/-! ## Recent-pledge history (C7, C2) -/

/-- C7: when pledge events are applied one after another by `Pledge` to a fresh campaign
identity (no "main" and no "pledges" record in the store, a newly activated actor whose
in-memory history is empty, every store operation succeeding), the run returns and, if there
is at least one event, the persisted recent-pledge sequence is exactly the events in arrival
order (with no event nothing is persisted).  The code has no capacity, so this holds for
every number of events, in particular for those not exceeding a capacity.  For the example
run the aggregate is counter 3, USD 150, EUR 20 and the sequence is the three events. -/
theorem pledge_sequence_history {α : Type} [Zero α] [Add α]
    (evts : List (PledgeEvent α)) (a : CampaignActor α) (s : Store α)
    (hmain : s.view a.id mainStateKey = none)
    (hpledges : s.view a.id pledgesStateKey = none)
    (hmem : a.pledgesState.Pledges = []) :
    (∃ a' s', pledgeAll Faults.none evts a s = .returned none a' s' ∧
      (evts = [] → persistedPledges s' a.id = none) ∧
      (evts ≠ [] → ∃ p, persistedPledges s' a.id = some (.pledges p) ∧ p.Pledges = evts)) ∧
    (∀ t1 t2 t3 : Nat, ∃ a' s' am,
      pledgeAll Faults.none (exampleEvents t1 t2 t3) (activate "1000") Store.empty =
        .returned none a' s' ∧
      persistedMain s' "1000" = some (.main ⟨"Main State", 3, some am⟩) ∧
      assocGet "USD" am = some 150 ∧ assocGet "EUR" am = some 20 ∧
      (∀ c, c ≠ "USD" → c ≠ "EUR" → assocGet c am = none) ∧
      ∃ name, persistedPledges s' "1000" = some (.pledges ⟨name, exampleEvents t1 t2 t3⟩)) := by
  constructor
  · cases evts with
    | nil =>
      refine ⟨a, s, rfl, ?_, fun h => absurd rfl h⟩
      intro _
      unfold Store.view at hpledges
      unfold persistedPledges
      cases hp : assocGet (a.id, pledgesStateKey) s.pending with
      | none => simpa [hp] using hpledges
      | some r => simp [hp] at hpledges
    | cons e es =>
      obtain ⟨hret, _, hvp, hpend⟩ := pledgeAll_fresh e es a s hmain
      refine ⟨_, _, hret, fun h => by simp at h, fun _ =>
        ⟨⟨(loadedPledges Faults.none a s).Name,
          (loadedPledges Faults.none a s).Pledges ++ (e :: es)⟩, ?_, ?_⟩⟩
      · unfold persistedPledges
        rw [committed_eq_view _ _ _ (hpend pledgesStateKey), hvp]
      · simp [loadedPledges_fresh Faults.none a s hpledges, hmem]
  · intro t1 t2 t3
    have hfold : (exampleEvents t1 t2 t3).foldl addAmount [] = [("USD", 150), ("EUR", 20)] := by
      simp [exampleEvents, addAmount, assocGet, assocSet]
    have hfresh : (Store.empty : Store Int).view (activate "1000" : CampaignActor Int).id
        mainStateKey = none := rfl
    have hp0 : (Store.empty : Store Int).view (activate "1000" : CampaignActor Int).id
        pledgesStateKey = none := rfl
    obtain ⟨hret, hvm, hvp, hpend⟩ :=
      pledgeAll_fresh (⟨"1000", t1, "A B", 100, "USD"⟩ : PledgeEvent Int)
        [⟨"1000", t2, "C D", 50, "USD"⟩, ⟨"1000", t3, "E F", 20, "EUR"⟩]
        (activate "1000") Store.empty hfresh
    have hid : (activate "1000" : CampaignActor Int).id = "1000" := rfl
    rw [hid] at hvm hvp hpend
    rw [loadedPledges_fresh Faults.none _ _ hp0] at hvp
    refine ⟨_, _, [("USD", 150), ("EUR", 20)], hret, ?_, rfl, rfl, ?_, "", ?_⟩
    · unfold persistedMain
      rw [committed_eq_view _ _ _ (hpend mainStateKey), hvm]
      have := hfold
      simp only [exampleEvents] at this
      rw [this]
      rfl
    · intro c h1 h2
      have h1' : ¬ "USD" = c := fun e => h1 e.symm
      have h2' : ¬ "EUR" = c := fun e => h2 e.symm
      simp [assocGet, h1', h2']
    · unfold persistedPledges
      rw [committed_eq_view _ _ _ (hpend pledgesStateKey), hvp]
      rfl

/-- C2: the recent-pledge sequence is not bounded.  Whatever the capacity, a run of
`capacity + 1` events on a fresh identity persists a sequence longer than the capacity; with
capacity 2 and the three example events the persisted sequence is all three events, not the
last two. -/
theorem pledges_history_unbounded :
    (∀ capacity : Nat, ∃ (a' : CampaignActor Int) (s' : Store Int) (p : pledgesState Int),
      pledgeAll Faults.none (List.replicate (capacity + 1) ⟨"1000", 0, "A B", 100, "USD"⟩)
        (activate "1000") Store.empty = .returned none a' s' ∧
      persistedPledges s' "1000" = some (.pledges p) ∧ capacity < p.Pledges.length) ∧
    (∃ (a' : CampaignActor Int) (s' : Store Int),
      pledgeAll Faults.none (exampleEvents 1 2 3) (activate "1000") Store.empty =
        .returned none a' s' ∧
      persistedPledges s' "1000" = some (.pledges ⟨"", exampleEvents 1 2 3⟩) ∧
      (exampleEvents 1 2 3).length = 3 ∧
      exampleEvents 1 2 3 ≠ (exampleEvents 1 2 3).drop 1) := by
  have hfresh : (Store.empty : Store Int).view (activate "1000" : CampaignActor Int).id
      mainStateKey = none := rfl
  have hp0 : (Store.empty : Store Int).view (activate "1000" : CampaignActor Int).id
      pledgesStateKey = none := rfl
  have hid : (activate "1000" : CampaignActor Int).id = "1000" := rfl
  constructor
  · intro capacity
    obtain ⟨hret, _, hvp, hpend⟩ :=
      pledgeAll_fresh (⟨"1000", 0, "A B", 100, "USD"⟩ : PledgeEvent Int)
        (List.replicate capacity ⟨"1000", 0, "A B", 100, "USD"⟩)
        (activate "1000") Store.empty hfresh
    rw [hid] at hvp hpend
    rw [loadedPledges_fresh Faults.none _ _ hp0] at hvp
    rw [List.replicate_succ]
    refine ⟨_, _, ⟨(activate "1000" : CampaignActor Int).pledgesState.Name,
      (activate "1000" : CampaignActor Int).pledgesState.Pledges ++
        (⟨"1000", 0, "A B", 100, "USD"⟩ ::
          List.replicate capacity ⟨"1000", 0, "A B", 100, "USD"⟩)⟩, hret, ?_, ?_⟩
    · unfold persistedPledges
      rw [committed_eq_view _ _ _ (hpend pledgesStateKey), hvp]
    · simp [activate, CampaignActorFactory]
  · refine ⟨⟨"1000", ⟨"Main State", 3, some [("USD", 150), ("EUR", 20)]⟩,
        ⟨"", exampleEvents 1 2 3⟩⟩,
      ⟨[(("1000", "main"), .main ⟨"Main State", 3, some [("USD", 150), ("EUR", 20)]⟩),
        (("1000", "pledges"), .pledges ⟨"", exampleEvents 1 2 3⟩)], []⟩,
      by decide, by decide, by decide, by decide⟩

/-! ## Initialisation (C4, C10) -/

/-- C4: what `getState` does when the store holds no record.  For "main" the actor gets the
fixed default whatever it held before.  For "pledges" the default is never installed: on the
empty store the actor comes back unchanged, so a newly activated actor keeps the zero value,
whose name is empty and not "Pledges State", and an actor with a stale history keeps it. -/
theorem getState_without_record :
    (∀ a : CampaignActor Int, (getState Faults.none mainStateKey a Store.empty).mainState =
      ⟨"Main State", 0, some []⟩) ∧
    (∀ a : CampaignActor Int, getState Faults.none pledgesStateKey a Store.empty = a) ∧
    (getState Faults.none pledgesStateKey (activate "1000" : CampaignActor Int)
      Store.empty).pledgesState = ⟨"", []⟩ ∧
    (getState Faults.none pledgesStateKey (activate "1000" : CampaignActor Int)
      Store.empty).pledgesState ≠ ⟨"Pledges State", []⟩ ∧
    (getState Faults.none pledgesStateKey
      (⟨"1000", ⟨"", 0, none⟩, ⟨"stale", exampleEvents 1 2 3⟩⟩ : CampaignActor Int)
      Store.empty).pledgesState = ⟨"stale", exampleEvents 1 2 3⟩ := by
  refine ⟨?_, ?_, by decide, by decide, by decide⟩
  · intro a
    rw [getState_main_absent Faults.none a Store.empty rfl rfl]
  · intro a
    exact getState_pledges_absent Faults.none a Store.empty rfl

theorem Pledge_cases {α : Type} [Zero α] [Add α] (f : Faults) (e : PledgeEvent α)
    (a : CampaignActor α) (s : Store α) :
    (∃ am, (loadedMain f a s).Amounts = some am ∧
      Pledge f e a s = .returned none (Pledge f e a s).actor (Pledge f e a s).store ∧
      (Pledge f e a s).actor.mainState.Amounts = some (addAmount am e)) ∨
    ((loadedMain f a s).Amounts = none ∧
      Pledge f e a s = .panicked (Pledge f e a s).actor s) := by
  cases h : (loadedMain f a s).Amounts with
  | none => exact Or.inr ⟨rfl, (Pledge_panicked f e a s h).1⟩
  | some am =>
    obtain ⟨h1, _, h3, _, _⟩ := Pledge_returned f e a s am h
    exact Or.inl ⟨am, rfl, h1, by rw [h3]⟩

theorem WrittenByPledge_amounts {α : Type} [Zero α] [Add α] (r : Record α)
    (h : WrittenByPledge r) : ∃ m am, r = .main m ∧ m.Amounts = some am := by
  obtain ⟨f, e, a, s, err, a', s', hP, hr⟩ := h
  rcases Pledge_cases f e a s with ⟨am, _, hret, ham⟩ | ⟨_, hpan⟩
  · rw [hP] at ham
    exact ⟨a'.mainState, _, hr, ham⟩
  · rw [hP] at hpan
    cases hpan

/-- C10: when `Contains` and `Get` succeed for "main" and the "main" record of the actor's
identity is absent or was written by an earlier `Pledge`, the `Amounts` map is initialised
after the load, where `Pledge` adds the event's amount to it, and `Pledge` does not take the
nil-map panic: it returns nil. -/
theorem amounts_initialised_at_update {α : Type} [Zero α] [Add α] (f : Faults)
    (e : PledgeEvent α) (a : CampaignActor α) (s : Store α)
    (hc : f.contains mainStateKey = false) (hg : f.get mainStateKey = false)
    (hrec : ∀ r, s.view a.id mainStateKey = some r → WrittenByPledge r) :
    (getState f mainStateKey a s).mainState.Amounts ≠ none ∧
      ∃ a' s', Pledge f e a s = .returned none a' s' := by
  have hl : ∃ am, (loadedMain f a s).Amounts = some am := by
    cases hv : s.view a.id mainStateKey with
    | none =>
      exact ⟨[], by simp [loadedMain, getState_main_absent f a s hc hv]⟩
    | some r =>
      obtain ⟨m, am, hr, ham⟩ := WrittenByPledge_amounts r (hrec r hv)
      subst hr
      exact ⟨am, by simp [loadedMain, getState_main_present f a s m hc hg hv, ham]⟩
  obtain ⟨am, ham⟩ := hl
  refine ⟨?_, _, _, (Pledge_returned f e a s am ham).1⟩
  unfold loadedMain at ham
  simp [ham]

/-! ## Isolation between identities (C8) -/

theorem Pledge_frame {α : Type} [Zero α] [Add α] (f : Faults) (e : PledgeEvent α)
    (a : CampaignActor α) (s : Store α) (i k : String) (h : i ≠ a.id) :
    assocGet (i, k) (Pledge f e a s).store.committed = assocGet (i, k) s.committed ∧
    assocGet (i, k) (Pledge f e a s).store.pending = assocGet (i, k) s.pending := by
  cases hl : (loadedMain f a s).Amounts with
  | none =>
    rw [(Pledge_panicked f e a s hl).1]
    exact ⟨rfl, rfl⟩
  | some am =>
    obtain ⟨_, hid, _, _, hs⟩ := Pledge_returned f e a s am hl
    have h' : i ≠ (Pledge f e a s).actor.id := by rw [hid]; exact h
    rw [hs]
    have h1 := frame_saveState f pledgesStateKey (Pledge f e a s).actor
      (saveState f mainStateKey (Pledge f e a s).actor s) i k h'
    have h2 := frame_saveState f mainStateKey (Pledge f e a s).actor s i k h'
    exact ⟨h1.1.trans h2.1, h1.2.trans h2.2⟩

theorem view_congr {α : Type} (s t : Store α) (id : String)
    (h : ∀ k, assocGet (id, k) t.committed = assocGet (id, k) s.committed ∧
      assocGet (id, k) t.pending = assocGet (id, k) s.pending) :
    ∀ k, t.view id k = s.view id k := by
  intro k
  simp [Store.view, (h k).1, (h k).2]

theorem Pledge_congr {α : Type} [Zero α] [Add α] (f : Faults) (e : PledgeEvent α)
    (a : CampaignActor α) (s t : Store α) (h : ∀ k, t.view a.id k = s.view a.id k) :
    (Pledge f e a t).actor = (Pledge f e a s).actor ∧
      (∀ err, (∃ a' t', Pledge f e a t = .returned err a' t') ↔
        (∃ a' s', Pledge f e a s = .returned err a' s')) := by
  have hg : getState f mainStateKey a t = getState f mainStateKey a s :=
    getState_congr f mainStateKey a t s h
  unfold Pledge
  simp only [hg]
  cases hm : (getState f mainStateKey a s).mainState.Amounts with
  | none => simp [Outcome.actor]
  | some am =>
    simp only [Outcome.actor]
    have hv : ∀ (b : CampaignActor α), b.id = a.id → ∀ k,
        (saveState f mainStateKey b t).view b.id k = (saveState f mainStateKey b s).view b.id k := by
      intro b hb k
      rw [view_saveState_main, view_saveState_main, hb, h k]
    have hg2 := getState_congr f pledgesStateKey
      { id := (getState f mainStateKey a s).id,
        mainState := { Name := (getState f mainStateKey a s).mainState.Name,
                       PledgesCounter := (getState f mainStateKey a s).mainState.PledgesCounter + 1,
                       Amounts := some (addAmount am e) },
        pledgesState := (getState f mainStateKey a s).pledgesState }
      (saveState f mainStateKey _ t) (saveState f mainStateKey _ s)
      (hv _ (getState_id f mainStateKey a s))
    rw [hg2]
    simp

/-- C8: `Pledge` on the actor of identity A leaves every record held under a different
identity B unchanged, persisted or buffered, under every key; and what A's actor loads and
ends up with does not depend on the records of other identities: on two stores that agree
on A's records, `getState` loads the same state for both keys and `Pledge` leaves the same
actor state and returns the same result. -/
theorem pledge_isolation {α : Type} [Zero α] [Add α] (f : Faults) (e : PledgeEvent α)
    (a : CampaignActor α) (s : Store α) (B : String) (hB : B ≠ a.id) :
    (∀ k, assocGet (B, k) (Pledge f e a s).store.committed = assocGet (B, k) s.committed ∧
      assocGet (B, k) (Pledge f e a s).store.pending = assocGet (B, k) s.pending) ∧
    (∀ t : Store α,
      (∀ k, assocGet (a.id, k) t.committed = assocGet (a.id, k) s.committed ∧
        assocGet (a.id, k) t.pending = assocGet (a.id, k) s.pending) →
      getState f mainStateKey a t = getState f mainStateKey a s ∧
      getState f pledgesStateKey a t = getState f pledgesStateKey a s ∧
      (Pledge f e a t).actor = (Pledge f e a s).actor ∧
      (∀ err, (∃ a' t', Pledge f e a t = .returned err a' t') ↔
        (∃ a' s', Pledge f e a s = .returned err a' s'))) := by
  refine ⟨fun k => Pledge_frame f e a s B k hB, ?_⟩
  intro t ht
  have hv := view_congr s t a.id ht
  exact ⟨getState_congr f mainStateKey a t s hv, getState_congr f pledgesStateKey a t s hv,
    Pledge_congr f e a s t hv⟩

/-! ## Store failures (C3) -/

/-- C3, counterexample: with every `Set` and `Save` failing, `Pledge` on a newly activated
actor over the empty store returns nil, having carried on through all its steps (counter
incremented, event appended in memory), and nothing is stored. -/
theorem store_failure_returns_nil :
    writesFail.any = true ∧
    Pledge writesFail (⟨"1000", 1, "A B", 100, "USD"⟩ : PledgeEvent Int) (activate "1000")
        Store.empty =
      .returned none
        ⟨"1000", ⟨"Main State", 1, some [("USD", 100)]⟩,
          ⟨"", [⟨"1000", 1, "A B", 100, "USD"⟩]⟩⟩
        Store.empty := by
  constructor
  · decide
  · decide

theorem getState_contains_fails {α : Type} (f : Faults) (key : String)
    (a : CampaignActor α) (s : Store α) (h : f.contains key = true) :
    getState f key a s = a := by
  simp [getState, StateManager.Contains, h]

theorem getState_get_fails {α : Type} (f : Faults) (key : String)
    (a : CampaignActor α) (s : Store α) (hc : f.contains key = false)
    (hg : f.get key = true) (hv : (s.view a.id key).isSome = true) :
    getState f key a s = a := by
  unfold getState StateManager.Contains
  simp only [hc, hv, StateManager.GetMain, StateManager.GetPledges, hg]
  simp

theorem saveState_fails {α : Type} (f : Faults) (key : String)
    (a : CampaignActor α) (s : Store α) (h1 : f.set key = true) (h2 : f.save key = true) :
    saveState f key a s = s := by
  unfold saveState StateManager.Set StateManager.Save
  simp only [h1, h2]
  split_ifs <;> rfl

/-- C3, amended: whichever store operations fail, `Pledge` never returns a non-nil error.
A failed `Contains` makes `getState` return the actor with its in-memory state as it was,
and so does a failed `Get` on an existing record; a successful load installs the default
(for a missing "main" record) or the stored record.  If the `Amounts` map is initialised
after the load, `Pledge` returns nil, having gone through every step on the state it
loaded: the amount added, the counter incremented (by one, for a counter below the largest
`int`), the event appended, both saves issued; a `Set` that fails leaves the record the
actor sees as it was, and if every `Set` and `Save` fails the store is unchanged.  If the
map is nil after the load, `Pledge` panics with the store untouched. -/
theorem pledge_never_returns_error {α : Type} [Zero α] [Add α] (f : Faults)
    (e : PledgeEvent α) (a : CampaignActor α) (s : Store α) :
    (∀ err a' s', Pledge f e a s = .returned err a' s' → err = none) ∧
    (∀ key, f.contains key = true → getState f key a s = a) ∧
    (∀ key, f.contains key = false → f.get key = true → (s.view a.id key).isSome = true →
      getState f key a s = a) ∧
    (f.contains mainStateKey = false → s.view a.id mainStateKey = none →
      loadedMain f a s = ⟨"Main State", 0, some []⟩) ∧
    (∀ m, f.contains mainStateKey = false → f.get mainStateKey = false →
      s.view a.id mainStateKey = some (.main m) → loadedMain f a s = m) ∧
    (∀ p, f.contains pledgesStateKey = false → f.get pledgesStateKey = false →
      s.view a.id pledgesStateKey = some (.pledges p) → loadedPledges f a s = p) ∧
    (∀ am, (loadedMain f a s).Amounts = some am →
      ∃ a' s', Pledge f e a s = .returned none a' s' ∧
        a'.id = a.id ∧
        a'.mainState.Name = (loadedMain f a s).Name ∧
        a'.mainState.Amounts = some (addAmount am e) ∧
        (minInt ≤ (loadedMain f a s).PledgesCounter →
          (loadedMain f a s).PledgesCounter < maxInt →
          a'.mainState.PledgesCounter = (loadedMain f a s).PledgesCounter + 1) ∧
        a'.pledgesState = ⟨(loadedPledges f a s).Name, (loadedPledges f a s).Pledges ++ [e]⟩ ∧
        s' = saveState f pledgesStateKey a' (saveState f mainStateKey a' s) ∧
        s'.view a.id mainStateKey =
          (if f.set mainStateKey = false then some (.main a'.mainState)
           else s.view a.id mainStateKey) ∧
        s'.view a.id pledgesStateKey =
          (if f.set pledgesStateKey = false then some (.pledges a'.pledgesState)
           else s.view a.id pledgesStateKey) ∧
        (f.set mainStateKey = true → f.save mainStateKey = true →
          f.set pledgesStateKey = true → f.save pledgesStateKey = true → s' = s)) ∧
    ((loadedMain f a s).Amounts = none → ∃ a', Pledge f e a s = .panicked a' s) := by
  refine ⟨?_, ?_, ?_, ?_, ?_, ?_, ?_, ?_⟩
  · intro err a' s' h
    rcases Pledge_cases f e a s with ⟨_, _, hret, _⟩ | ⟨_, hpan⟩
    · rw [h] at hret
      injection hret with h1 _ _
    · rw [h] at hpan
      cases hpan
  · intro key h
    exact getState_contains_fails f key a s h
  · intro key hc hg hv
    exact getState_get_fails f key a s hc hg hv
  · intro hc hv
    simp [loadedMain, getState_main_absent f a s hc hv]
  · intro m hc hg hv
    simp [loadedMain, getState_main_present f a s m hc hg hv]
  · intro p hc hg hv
    simp [loadedPledges, getState_pledges_present f a s p hc hg hv]
  · intro am h
    obtain ⟨h1, hid, h3, h4, h5⟩ := Pledge_returned f e a s am h
    refine ⟨(Pledge f e a s).actor, (Pledge f e a s).store, h1, hid, ?_, ?_, ?_, h4, h5,
      ?_, ?_, ?_⟩
    · rw [h3]
    · rw [h3]
    · intro _ _
      rw [h3]
    · rw [h5, view_saveState_pledges, view_saveState_main]
      simp [keys_ne, hid]
    · rw [h5, view_saveState_pledges, view_saveState_main]
      simp [keys_ne.symm, hid]
    · intro s1 s2 s3 s4
      rw [h5, saveState_fails f pledgesStateKey _ _ s3 s4,
        saveState_fails f mainStateKey _ _ s1 s2]
  · intro h
    exact ⟨_, (Pledge_panicked f e a s h).1⟩

/-! ## Decoding failures and the result of the handler (C5, C6) -/

/-- C5, counterexample: a delivery whose decoding fails (the amount is not a number) still
invokes `Pledge`, with the partly decoded event, on the actor of campaign "1000", and the
store changes: the aggregate record of the campaign is created with counter 1 and the event
enters its recent-pledge record. -/
theorem failed_decode_mutates_state :
    (decodeFields malformedPayload PledgeEvent.zero).2 ≠ none ∧
    pledgeHandler decodeFields (hostClient Faults.none) ⟨malformedPayload⟩
        (⟨[], Store.empty⟩ : World Int) =
      .returned false none
        ⟨[("1000", ⟨"1000", ⟨"Main State", 1, some [("USD", 0)]⟩,
            ⟨"", [⟨"1000", 0, "A B", 0, "USD"⟩]⟩⟩)],
         ⟨[(("1000", "main"), .main ⟨"Main State", 1, some [("USD", 0)]⟩),
           (("1000", "pledges"), .pledges ⟨"", [⟨"1000", 0, "A B", 0, "USD"⟩]⟩)], []⟩⟩ ∧
    persistedMain (Store.empty : Store Int) "1000" = none := by
  refine ⟨by decide, ?_, by decide⟩
  rfl

/-- C5, amended: for every payload, whether or not its decoding fails, `pledgeHandler`
invokes `Pledge` once, with the event as the decoder left it, on the actor whose identity is
that event's `CampaignId`; the world after the delivery is the world after that call. -/
theorem pledgeHandler_always_invokes {α ω δ : Type} [Zero α]
    (decode : δ → PledgeEvent α → PledgeEvent α × Option Error) (daprclient : Client α ω)
    (e : TopicEvent δ) (w : ω) :
    ∃ retry err,
      pledgeHandler decode daprclient e w =
        .returned retry err
          (daprclient.invokeActor "CampaignActorType"
            (decode e.Data PledgeEvent.zero).1.CampaignId "Pledge"
            (decode e.Data PledgeEvent.zero).1 w).2 := by
  unfold pledgeHandler
  simp only [Client.ImplActorClientStub, NewCampaignActor, CampaignActorStub.Type,
    CampaignActorStub.ID]
  split <;> rename_i h <;> simp [h]

/-- C6: for every delivery `pledgeHandler` returns with retry = false, and the error it
returns is the error the actor's `Pledge` call returned: nil exactly when that call
returned nil, and the very same error otherwise. -/
theorem pledgeHandler_result {α ω δ : Type} [Zero α]
    (decode : δ → PledgeEvent α → PledgeEvent α × Option Error) (daprclient : Client α ω)
    (e : TopicEvent δ) (w : ω) :
    ∃ err w', pledgeHandler decode daprclient e w = .returned false err w' ∧
      err = (daprclient.invokeActor "CampaignActorType"
        (decode e.Data PledgeEvent.zero).1.CampaignId "Pledge"
        (decode e.Data PledgeEvent.zero).1 w).1 ∧
      (err = none ↔ (daprclient.invokeActor "CampaignActorType"
        (decode e.Data PledgeEvent.zero).1.CampaignId "Pledge"
        (decode e.Data PledgeEvent.zero).1 w).1 = none) := by
  unfold pledgeHandler
  simp only [Client.ImplActorClientStub, NewCampaignActor, CampaignActorStub.Type,
    CampaignActorStub.ID]
  split <;> rename_i h <;> simp [h]

/-! ## Concrete instances -/

/-- C1, instance: the three example events applied to campaign "1000" on a store that holds
the records of campaign "1001". -/
theorem pledge_sequence_counter_and_sums_witness :
    sampleStore.view freshActor.id mainStateKey = none ∧
    ∃ a' s', pledgeAll Faults.none (exampleEvents 1 2 3) freshActor sampleStore =
        .returned none a' s' ∧
      (exampleEvents 1 2 3 = [] → persistedMain s' freshActor.id = none) ∧
      (exampleEvents 1 2 3 ≠ [] → ∃ am,
        persistedMain s' freshActor.id =
          some (.main ⟨"Main State", ((exampleEvents 1 2 3).length : Int), some am⟩) ∧
        ∀ c, (assocGet c am).getD 0 = sumFor c (exampleEvents 1 2 3) ∧
          ((assocGet c am).isSome ↔ ∃ e ∈ exampleEvents 1 2 3, e.Currency = c)) :=
  ⟨by decide,
    pledge_sequence_counter_and_sums (exampleEvents 1 2 3) freshActor sampleStore (by decide)⟩

/-- C7, instance: the three example events applied to campaign "1000", newly activated, on
a store that holds the records of campaign "1001". -/
theorem pledge_sequence_history_witness :
    (sampleStore.view freshActor.id mainStateKey = none ∧
      sampleStore.view freshActor.id pledgesStateKey = none ∧
      freshActor.pledgesState.Pledges = []) ∧
    ((∃ a' s', pledgeAll Faults.none (exampleEvents 1 2 3) freshActor sampleStore =
        .returned none a' s' ∧
      (exampleEvents 1 2 3 = [] → persistedPledges s' freshActor.id = none) ∧
      (exampleEvents 1 2 3 ≠ [] → ∃ p, persistedPledges s' freshActor.id = some (.pledges p) ∧
        p.Pledges = exampleEvents 1 2 3)) ∧
    (∀ t1 t2 t3 : Nat, ∃ a' s' am,
      pledgeAll Faults.none (exampleEvents t1 t2 t3) (activate "1000") Store.empty =
        .returned none a' s' ∧
      persistedMain s' "1000" = some (.main ⟨"Main State", 3, some am⟩) ∧
      assocGet "USD" am = some 150 ∧ assocGet "EUR" am = some 20 ∧
      (∀ c, c ≠ "USD" → c ≠ "EUR" → assocGet c am = none) ∧
      ∃ name, persistedPledges s' "1000" = some (.pledges ⟨name, exampleEvents t1 t2 t3⟩))) :=
  ⟨⟨by decide, by decide, by decide⟩,
    pledge_sequence_history (exampleEvents 1 2 3) freshActor sampleStore
      (by decide) (by decide) (by decide)⟩

/-- C10, instance: a second pledge for campaign "1000", on a newly activated actor, over
the store left by a first pledge. -/
theorem amounts_initialised_at_update_witness :
    (Faults.none.contains mainStateKey = false ∧ Faults.none.get mainStateKey = false ∧
      (∀ r, storeAfterOne.view freshActor.id mainStateKey = some r → WrittenByPledge r)) ∧
    ((getState Faults.none mainStateKey freshActor storeAfterOne).mainState.Amounts ≠ none ∧
      ∃ a' s', Pledge Faults.none samplePledge freshActor storeAfterOne =
        .returned none a' s') :=
  have h : ∀ r, storeAfterOne.view freshActor.id mainStateKey = some r → WrittenByPledge r := by
    intro r hr
    have hv : storeAfterOne.view freshActor.id mainStateKey =
        some (.main ⟨"Main State", 1, some [("USD", 100)]⟩) := by decide
    rw [hv] at hr
    injection hr with hr
    subst hr
    exact ⟨Faults.none, samplePledge, freshActor, Store.empty, none,
      ⟨"1000", ⟨"Main State", 1, some [("USD", 100)]⟩, ⟨"", [samplePledge]⟩⟩,
      storeAfterOne, by decide, rfl⟩
  ⟨⟨rfl, rfl, h⟩,
    amounts_initialised_at_update Faults.none samplePledge freshActor storeAfterOne rfl rfl h⟩

/-- C8, instance: a pledge for campaign "1000" on a store that holds the records of
campaign "1001". -/
theorem pledge_isolation_witness :
    "1001" ≠ freshActor.id ∧
    ((∀ k, assocGet ("1001", k) (Pledge Faults.none samplePledge freshActor sampleStore).store.committed
        = assocGet ("1001", k) sampleStore.committed ∧
      assocGet ("1001", k) (Pledge Faults.none samplePledge freshActor sampleStore).store.pending
        = assocGet ("1001", k) sampleStore.pending) ∧
    (∀ t : Store Int,
      (∀ k, assocGet (freshActor.id, k) t.committed = assocGet (freshActor.id, k) sampleStore.committed ∧
        assocGet (freshActor.id, k) t.pending = assocGet (freshActor.id, k) sampleStore.pending) →
      getState Faults.none mainStateKey freshActor t =
        getState Faults.none mainStateKey freshActor sampleStore ∧
      getState Faults.none pledgesStateKey freshActor t =
        getState Faults.none pledgesStateKey freshActor sampleStore ∧
      (Pledge Faults.none samplePledge freshActor t).actor =
        (Pledge Faults.none samplePledge freshActor sampleStore).actor ∧
      (∀ err, (∃ a' t', Pledge Faults.none samplePledge freshActor t = .returned err a' t') ↔
        (∃ a' s', Pledge Faults.none samplePledge freshActor sampleStore =
          .returned err a' s')))) :=
  ⟨by decide, pledge_isolation Faults.none samplePledge freshActor sampleStore "1001" (by decide)⟩

/-- C3, instance: a second pledge on the live actor of campaign "1000", over the store the
first pledge left, every store operation failing.  Both loads leave the in-memory state as
it was, `Pledge` returns nil with the counter at 2, the amount at 200 and two events in
memory, and the store is unchanged. -/
theorem pledge_never_returns_error_witness :
    ((loadedMain allFail liveActor storeAfterOne).Amounts = some [("USD", 100)] ∧
      allFail.contains mainStateKey = true ∧ allFail.contains pledgesStateKey = true ∧
      minInt ≤ (loadedMain allFail liveActor storeAfterOne).PledgesCounter ∧
      (loadedMain allFail liveActor storeAfterOne).PledgesCounter < maxInt) ∧
    getState allFail mainStateKey liveActor storeAfterOne = liveActor ∧
    getState allFail pledgesStateKey liveActor storeAfterOne = liveActor ∧
    ∃ a' s', Pledge allFail samplePledge liveActor storeAfterOne = .returned none a' s' ∧
      a'.id = liveActor.id ∧
      a'.mainState.Name = (loadedMain allFail liveActor storeAfterOne).Name ∧
      a'.mainState.Amounts = some (addAmount [("USD", 100)] samplePledge) ∧
      (minInt ≤ (loadedMain allFail liveActor storeAfterOne).PledgesCounter →
        (loadedMain allFail liveActor storeAfterOne).PledgesCounter < maxInt →
        a'.mainState.PledgesCounter =
          (loadedMain allFail liveActor storeAfterOne).PledgesCounter + 1) ∧
      a'.pledgesState = ⟨(loadedPledges allFail liveActor storeAfterOne).Name,
        (loadedPledges allFail liveActor storeAfterOne).Pledges ++ [samplePledge]⟩ ∧
      s' = saveState allFail pledgesStateKey a'
        (saveState allFail mainStateKey a' storeAfterOne) ∧
      s'.view liveActor.id mainStateKey =
        (if allFail.set mainStateKey = false then some (.main a'.mainState)
         else storeAfterOne.view liveActor.id mainStateKey) ∧
      s'.view liveActor.id pledgesStateKey =
        (if allFail.set pledgesStateKey = false then some (.pledges a'.pledgesState)
         else storeAfterOne.view liveActor.id pledgesStateKey) ∧
      (allFail.set mainStateKey = true → allFail.save mainStateKey = true →
        allFail.set pledgesStateKey = true → allFail.save pledgesStateKey = true →
        s' = storeAfterOne) :=
  ⟨⟨by decide, by decide, by decide, by decide, by decide⟩,
    (pledge_never_returns_error allFail samplePledge liveActor storeAfterOne).2.1
      mainStateKey (by decide),
    (pledge_never_returns_error allFail samplePledge liveActor storeAfterOne).2.1
      pledgesStateKey (by decide),
    (pledge_never_returns_error allFail samplePledge liveActor storeAfterOne).2.2.2.2.2.2.1
      [("USD", 100)] (by decide)⟩

end CampaignManager
